import Mathlib

/-!
Verification development for the chrmaPal color-ramp engine.

The Rust sources under `src/` are embedded shallowly:
* `f32` arithmetic is modelled over `ℚ`; every operation used by the claims
  below (linear interpolation, the hue-folding loops, clamping, rounding)
  is exact rational arithmetic in the source as well, except for the
  OkLab/OkLCh conversion chain (`cbrt`, `powf`, `atan2`, ...), which is
  kept abstract as a `Conv` record of conversion functions.
* `egui::Color32` is an external library type; it is modelled as a plain
  record of four 8-bit channels (red, green, blue, alpha), which is the
  representation the engine reads and writes through `r()/g()/b()/a()`,
  `from_rgb` and `from_rgba_unmultiplied`.
* Rust operations that can panic (`unwrap`, slice indexing) are modelled
  as `Option`-valued functions; `none` stands for a panic.
-/

/-- Model of `egui::Color32`: four 8-bit channels. -/
structure Color where
  r : ℕ
  g : ℕ
  b : ℕ
  a : ℕ
deriving DecidableEq, Repr

/-- `Color32::BLACK` (opaque black). -/
def Color.black : Color := ⟨0, 0, 0, 255⟩

/-- `Color32::WHITE` (opaque white). -/
def Color.white : Color := ⟨255, 255, 255, 255⟩

/-- `Color32::from_rgb`: fully opaque color (alpha = 255). -/
def Color.from_rgb (r g b : ℕ) : Color := ⟨r, g, b, 255⟩

/-- `Color32::from_rgba_unmultiplied`, modelled as a plain 4-channel value. -/
def Color.from_rgba (r g b a : ℕ) : Color := ⟨r, g, b, a⟩

/-- A color whose channels all fit in 8 bits. -/
def Color.Valid (c : Color) : Prop :=
  c.r ≤ 255 ∧ c.g ≤ 255 ∧ c.b ≤ 255 ∧ c.a ≤ 255

instance (c : Color) : Decidable c.Valid := by
  unfold Color.Valid; infer_instance

/-- `f32::clamp`. -/
def clampQ (x lo hi : ℚ) : ℚ := min (max x lo) hi

/-- `lerp_f32` from src/color.rs: `a + (b - a) * t`. -/
def lerp_f32 (a b t : ℚ) : ℚ := a + (b - a) * t

/-- `f32::round`: round to nearest, ties away from zero. -/
def rust_round (x : ℚ) : ℤ := if 0 ≤ x then ⌊x + 1/2⌋ else ⌈x - 1/2⌉

/-- Rust's saturating `as u8` cast from an integer value. -/
def to_u8 (x : ℤ) : ℕ := (min 255 (max 0 x)).toNat

/-- `lerp_rgb` from src/color.rs: per-channel linear interpolation
(including alpha), rounded to the nearest 8-bit value. -/
def lerp_rgb (c1 c2 : Color) (t : ℚ) : Color :=
  Color.from_rgba
    (to_u8 (rust_round (lerp_f32 c1.r c2.r t)))
    (to_u8 (rust_round (lerp_f32 c1.g c2.g t)))
    (to_u8 (rust_round (lerp_f32 c1.b c2.b t)))
    (to_u8 (rust_round (lerp_f32 c1.a c2.a t)))

/-- `extrapolate_rgb` from src/color.rs: shift toward black (direction < 0)
or white (direction ≥ 0) by `|direction|`, clamped per channel, rebuilt
with `from_rgb` (alpha forced to 255). -/
def extrapolate_rgb (reference : Color) (direction : ℚ) : Color :=
  let target := if direction < 0 then Color.black else Color.white
  let t := |direction|
  Color.from_rgb
    (to_u8 (rust_round (clampQ (lerp_f32 reference.r target.r t) 0 255)))
    (to_u8 (rust_round (clampQ (lerp_f32 reference.g target.g t) 0 255)))
    (to_u8 (rust_round (clampQ (lerp_f32 reference.b target.b t) 0 255)))

/-- First hue-folding loop of `lerp_hue`: `while delta > 180 { delta -= 360 }`. -/
def foldDown (d : ℚ) : ℚ :=
  if h : 180 < d then foldDown (d - 360) else d
termination_by (⌈d - 180⌉).toNat
decreasing_by
  have h1 : (0 : ℚ) < d - 180 := by linarith
  have h2 : (0 : ℤ) < ⌈d - 180⌉ := Int.ceil_pos.mpr h1
  have h3 : d - 360 - 180 = d - 180 - (360 : ℤ) := by push_cast; ring
  have h4 : ⌈d - 360 - 180⌉ = ⌈d - 180⌉ - 360 := by
    rw [h3, Int.ceil_sub_int]
  rw [Int.toNat_lt_toNat]
  · rw [h4]; omega
  · exact h2

/-- Second hue-folding loop of `lerp_hue`: `while delta < -180 { delta += 360 }`. -/
def foldUp (d : ℚ) : ℚ :=
  if h : d < -180 then foldUp (d + 360) else d
termination_by (⌈-180 - d⌉).toNat
decreasing_by
  have h1 : (0 : ℚ) < -180 - d := by linarith
  have h2 : (0 : ℤ) < ⌈-180 - d⌉ := Int.ceil_pos.mpr h1
  have h3 : -180 - (d + 360) = -180 - d - (360 : ℤ) := by push_cast; ring
  have h4 : ⌈-180 - (d + 360)⌉ = ⌈-180 - d⌉ - 360 := by
    rw [h3, Int.ceil_sub_int]
  rw [Int.toNat_lt_toNat]
  · rw [h4]; omega
  · exact h2

/-- First result-normalization loop of `lerp_hue`:
`while result < 0 { result += 360 }`. -/
def norm1 (r : ℚ) : ℚ :=
  if h : r < 0 then norm1 (r + 360) else r
termination_by (⌈-r⌉).toNat
decreasing_by
  have h1 : (0 : ℚ) < -r := by linarith
  have h2 : (0 : ℤ) < ⌈-r⌉ := Int.ceil_pos.mpr h1
  have h3 : -(r + 360) = -r - (360 : ℤ) := by push_cast; ring
  have h4 : ⌈-(r + 360)⌉ = ⌈-r⌉ - 360 := by rw [h3, Int.ceil_sub_int]
  rw [Int.toNat_lt_toNat]
  · rw [h4]; omega
  · exact h2

/-- Second result-normalization loop of `lerp_hue`:
`while result >= 360 { result -= 360 }`. -/
def norm2 (r : ℚ) : ℚ :=
  if h : 360 ≤ r then norm2 (r - 360) else r
termination_by (⌈r - 359⌉).toNat
decreasing_by
  have h1 : (0 : ℚ) < r - 359 := by linarith
  have h2 : (0 : ℤ) < ⌈r - 359⌉ := Int.ceil_pos.mpr h1
  have h3 : r - 360 - 359 = r - 359 - (360 : ℤ) := by push_cast; ring
  have h4 : ⌈r - 360 - 359⌉ = ⌈r - 359⌉ - 360 := by rw [h3, Int.ceil_sub_int]
  rw [Int.toNat_lt_toNat]
  · rw [h4]; omega
  · exact h2

/-- `lerp_hue` from src/color.rs: fold the hue difference toward the
shorter arc, interpolate, and renormalize the result into [0, 360). -/
def lerp_hue (h1 h2 t : ℚ) : ℚ :=
  let delta := foldUp (foldDown (h2 - h1))
  norm2 (norm1 (h1 + delta * t))

/-- The OkLab/OkLCh conversion chain of src/color.rs uses `f32` `cbrt`,
`powf`, `sqrt`, `atan2`, `cos` and `sin`, which have no exact rational
counterpart.  The four conversion endpoints are therefore kept abstract:
theorems about the Lab/LCh color spaces quantify over this record. -/
structure Conv where
  rgb_to_oklab : Color → ℚ × ℚ × ℚ
  oklab_to_rgb : ℚ × ℚ × ℚ → Color
  rgb_to_oklch : Color → ℚ × ℚ × ℚ
  oklch_to_rgb : ℚ × ℚ × ℚ → Color

/-- Placeholder conversion record used to take concrete instances of
theorems whose conclusion does not depend on the conversions (pure-RGB
scenarios). -/
def Conv.triv : Conv :=
  ⟨fun _ => (0, 0, 0), fun _ => Color.black, fun _ => (0, 0, 0), fun _ => Color.black⟩

/-- `lerp_oklab` from src/color.rs: convert both colors to (L,a,b),
interpolate each component linearly, convert back. -/
def lerp_oklab (conv : Conv) (c1 c2 : Color) (t : ℚ) : Color :=
  let p1 := conv.rgb_to_oklab c1
  let p2 := conv.rgb_to_oklab c2
  conv.oklab_to_rgb
    (lerp_f32 p1.1 p2.1 t, lerp_f32 p1.2.1 p2.2.1 t, lerp_f32 p1.2.2 p2.2.2 t)

/-- `lerp_oklch` from src/color.rs: interpolate L and C linearly and the
hue along the shortest arc, then convert back. -/
def lerp_oklch (conv : Conv) (c1 c2 : Color) (t : ℚ) : Color :=
  let p1 := conv.rgb_to_oklch c1
  let p2 := conv.rgb_to_oklch c2
  conv.oklch_to_rgb
    (lerp_f32 p1.1 p2.1 t, lerp_f32 p1.2.1 p2.2.1 t, lerp_hue p1.2.2 p2.2.2 t)

/-- `extrapolate_oklab` from src/color.rs: shift only the lightness,
clamped to [0,1]; the chromatic components are held fixed. -/
def extrapolate_oklab (conv : Conv) (reference : Color) (direction : ℚ) : Color :=
  let p := conv.rgb_to_oklab reference
  let new_l := if direction < 0 then clampQ (p.1 - |direction|) 0 1
               else clampQ (p.1 + direction) 0 1
  conv.oklab_to_rgb (new_l, p.2.1, p.2.2)

/-- `extrapolate_oklch` from src/color.rs: shift only the lightness,
clamped to [0,1]; chroma and hue are held fixed. -/
def extrapolate_oklch (conv : Conv) (reference : Color) (direction : ℚ) : Color :=
  let p := conv.rgb_to_oklch reference
  let new_l := if direction < 0 then clampQ (p.1 - |direction|) 0 1
               else clampQ (p.1 + direction) 0 1
  conv.oklch_to_rgb (new_l, p.2.1, p.2.2)

/-- `ColorSpace` from src/color.rs. -/
inductive ColorSpace where
  | rgb
  | okLab
  | okLCh
deriving DecidableEq, Repr

/-- `ColorSpace::default()` is `Rgb`. -/
def ColorSpace.default : ColorSpace := .rgb

/-- `lerp_color` from src/color.rs: clamp `t` to [0,1], then dispatch on
the color space. -/
def lerp_color (conv : Conv) (c1 c2 : Color) (t : ℚ) (space : ColorSpace) : Color :=
  let t := clampQ t 0 1
  match space with
  | .rgb => lerp_rgb c1 c2 t
  | .okLab => lerp_oklab conv c1 c2 t
  | .okLCh => lerp_oklch conv c1 c2 t

/-- `extrapolate_color` from src/color.rs: dispatch on the color space. -/
def extrapolate_color (conv : Conv) (reference : Color) (direction : ℚ)
    (space : ColorSpace) : Color :=
  match space with
  | .rgb => extrapolate_rgb reference direction
  | .okLab => extrapolate_oklab conv reference direction
  | .okLCh => extrapolate_oklch conv reference direction

/-- The 8-bit round trip through the selected color space: the identity
for RGB, the conversion round trip for the Lab/LCh spaces. -/
def space_roundtrip (conv : Conv) (space : ColorSpace) (c : Color) : Color :=
  match space with
  | .rgb => c
  | .okLab => conv.oklab_to_rgb (conv.rgb_to_oklab c)
  | .okLCh => conv.oklch_to_rgb (conv.rgb_to_oklch c)

/-- Modelled from the spec: `CurveType` and its `sample` function live in
the curve module, which src/palette.rs imports but whose defining file is
absent from the source tree (src/curves.rs holds unrelated saturation/hue
curves).  Variants and formulas follow the specification: Linear is
`t * factor`, EaseIn is `t ^ exponent`, EaseOut mirrors EaseIn, EaseInOut
is the piecewise combination continuous at 1/2, and Bezier is the cubic
blend of four scalar control values.  The exponent is modelled as a
natural number so that sampling stays within rational arithmetic. -/
inductive CurveType where
  | linear (factor : ℚ)
  | easeIn (exponent : ℕ)
  | easeOut (exponent : ℕ)
  | easeInOut (exponent : ℕ)
  | bezier (p0 p1 p2 p3 : ℚ)
deriving DecidableEq, Repr

/-- Modelled from the spec: `Curve::sample` for each variant. -/
def CurveType.sample : CurveType → ℚ → ℚ
  | .linear factor, t => t * factor
  | .easeIn e, t => t ^ e
  | .easeOut e, t => 1 - (1 - t) ^ e
  | .easeInOut e, t =>
      if t < 1/2 then (2 * t) ^ e / 2 else 1 - (2 * (1 - t)) ^ e / 2
  | .bezier p0 p1 p2 p3, t =>
      (1 - t) ^ 3 * p0 + 3 * (1 - t) ^ 2 * t * p1
        + 3 * (1 - t) * t ^ 2 * p2 + t ^ 3 * p3

/-- Modelled from the spec: the default curve is the identity-factor
Linear curve. -/
def CurveType.default : CurveType := .linear 1

/-- `ControlPoint` from src/palette.rs. -/
structure ControlPoint where
  id : ℕ
  position : ℚ
  color : Color
deriving DecidableEq, Repr

/-- `ControlPoint::new`: the position is clamped to [0,1]. -/
def ControlPoint.new (id : ℕ) (position : ℚ) (color : Color) : ControlPoint :=
  ⟨id, clampQ position 0 1, color⟩

/-- `Swatch` from src/palette.rs. -/
structure Swatch where
  size : ℕ
  control_points : List ControlPoint
  interpolation_curve : CurveType
  color_space : ColorSpace
  next_control_point_id : ℕ
deriving DecidableEq, Repr

/-- `Swatch::default()`: two anchors, a bright one at 0 and a dark one
at 1. -/
def Swatch.default : Swatch :=
  ⟨8,
   [ControlPoint.new 0 0 (Color.from_rgb 240 230 220),
    ControlPoint.new 1 1 (Color.from_rgb 20 20 40)],
   CurveType.default, ColorSpace.default, 2⟩

/-- Loop body of `Swatch::find_bracketing_points`: scan adjacent pairs for
the first one with `current.position <= t <= next.position`. -/
def find_bracketing_aux (t : ℚ) : List ControlPoint → Option (ControlPoint × ControlPoint)
  | c1 :: c2 :: rest =>
      if c1.position ≤ t ∧ t ≤ c2.position then some (c1, c2)
      else find_bracketing_aux t (c2 :: rest)
  | _ => none

/-- `Swatch::find_bracketing_points`: the scan, then the `(last, last)`
fallback; `none` models the panic of `last().unwrap()` on an empty list. -/
def find_bracketing_points (cps : List ControlPoint) (t : ℚ) :
    Option (ControlPoint × ControlPoint) :=
  match find_bracketing_aux t cps with
  | some p => some p
  | none => cps.getLast?.map (fun l => (l, l))

/-- `Swatch::interpolate_between` from src/palette.rs. -/
def interpolate_between (conv : Conv) (s : Swatch) (t : ℚ) : Option Color :=
  (find_bracketing_points s.control_points t).map (fun p =>
    let segment_length := p.2.position - p.1.position
    let local_t := if 0 < segment_length then (t - p.1.position) / segment_length else 0
    let curved_t := s.interpolation_curve.sample local_t
    lerp_color conv p.1.color p.2.color curved_t s.color_space)

/-- `Swatch::sample_single_point` from src/palette.rs; `none` models the
panic of indexing `control_points[0]` on an empty list. -/
def sample_single_point (conv : Conv) (s : Swatch) (t : ℚ) : Option Color :=
  s.control_points.head?.map (fun cp =>
    if t < cp.position then
      let distance := cp.position - t
      let curved_distance := s.interpolation_curve.sample (min distance 1)
      extrapolate_color conv cp.color curved_distance s.color_space
    else if cp.position < t then
      let distance := t - cp.position
      let curved_distance := s.interpolation_curve.sample (min distance 1)
      extrapolate_color conv cp.color (-curved_distance) s.color_space
    else cp.color)

/-- `Swatch::extrapolate_before` from src/palette.rs. -/
def extrapolate_before (conv : Conv) (s : Swatch) (t : ℚ)
    (first : ControlPoint) : Color :=
  let region_size := first.position
  if region_size ≤ 0 then first.color
  else
    let normalized_distance := (first.position - t) / region_size
    let curved_distance := s.interpolation_curve.sample normalized_distance
    extrapolate_color conv first.color curved_distance s.color_space

/-- `Swatch::extrapolate_after` from src/palette.rs. -/
def extrapolate_after (conv : Conv) (s : Swatch) (t : ℚ)
    (last : ControlPoint) : Color :=
  let region_size := 1 - last.position
  if region_size ≤ 0 then last.color
  else
    let normalized_distance := (t - last.position) / region_size
    let curved_distance := s.interpolation_curve.sample normalized_distance
    extrapolate_color conv last.color (-curved_distance) s.color_space

/-- `Swatch::sample_at` from src/palette.rs; the unreachable match arm
models the panics of `control_points[0]` / `last().unwrap()`. -/
def sample_at (conv : Conv) (s : Swatch) (t : ℚ) : Option Color :=
  if s.control_points = [] then some Color.black
  else if s.control_points.length = 1 then sample_single_point conv s t
  else
    match s.control_points.head?, s.control_points.getLast? with
    | some first, some last =>
        if t < first.position then some (extrapolate_before conv s t first)
        else if last.position < t then some (extrapolate_after conv s t last)
        else interpolate_between conv s t
    | _, _ => none

/-- `Swatch::generate_colors` from src/palette.rs. -/
def generate_colors (conv : Conv) (s : Swatch) : Option (List Color) :=
  if s.control_points = [] then some (List.replicate s.size Color.black)
  else
    (List.range s.size).mapM (fun i =>
      let t : ℚ := if 1 < s.size then (i : ℚ) / ((s.size - 1 : ℕ) : ℚ) else 1/2
      sample_at conv s t)

/-- `Palette` from src/palette.rs. -/
structure Palette where
  swatches : List Swatch
deriving DecidableEq, Repr

/-- `Palette::new()`: one default swatch. -/
def Palette.new : Palette := ⟨[Swatch.default]⟩

/-- Insert an element at position `i` (Rust `Vec::insert`; all call sites
below pass an in-bounds index). -/
def list_insert_at {α : Type} (l : List α) (i : ℕ) (x : α) : List α :=
  l.take i ++ x :: l.drop i

/-- Swap two elements (Rust `Vec::swap`; out of bounds would panic in
Rust, but every call site below is bounds-checked first). -/
def list_swap {α : Type} (l : List α) (i j : ℕ) : List α :=
  match l.get? i, l.get? j with
  | some x, some y => (l.set i y).set j x
  | _, _ => l

/-- `App` from src/app.rs.  The UI viewport field is omitted: it carries
no palette or cache state. -/
structure App where
  palette : Palette
  current_swatch_index : ℕ
  generated_colors : List (Option (List Color))
deriving DecidableEq, Repr

/-- `App::regenerate_all_colors`. -/
def App.regenerate_all_colors (conv : Conv) (app : App) : App :=
  { app with generated_colors := app.palette.swatches.map (generate_colors conv) }

/-- `App::regenerate_current_colors`: guarded on the cache length; the
swatch lookup mirrors `self.palette.swatches[idx]`, whose out-of-bounds
panic (dead under the cache-length invariant) is the second match arm. -/
def App.regenerate_current_colors (conv : Conv) (app : App) : App :=
  if app.current_swatch_index < app.generated_colors.length then
    match app.palette.swatches.get? app.current_swatch_index with
    | some s =>
        { app with generated_colors :=
            app.generated_colors.set app.current_swatch_index (generate_colors conv s) }
    | none => app
  else app

/-- `App::new()`. -/
def App.new (conv : Conv) : App :=
  App.regenerate_all_colors conv ⟨Palette.new, 0, []⟩

/-- `App::current_swatch`: unguarded indexing; `none` models the panic. -/
def App.current_swatch (app : App) : Option Swatch :=
  app.palette.swatches.get? app.current_swatch_index

/-- `App::add_swatch`: push the swatch and an empty cache entry, then
fill the new cache slot. -/
def App.add_swatch (conv : Conv) (app : App) (s : Swatch) : App :=
  let swatches := app.palette.swatches ++ [s]
  let gen := app.generated_colors ++ [some []]
  let idx := swatches.length - 1
  let gen := match swatches.get? idx with
    | some sw => gen.set idx (generate_colors conv sw)
    | none => gen
  { app with palette := ⟨swatches⟩, generated_colors := gen }

/-- `App::remove_swatch`: refuses to remove the last swatch; otherwise
removes the swatch and its cache entry and clamps the current index. -/
def App.remove_swatch (app : App) (index : ℕ) : App :=
  if app.palette.swatches.length ≤ 1 then app
  else if index < app.palette.swatches.length then
    let swatches := app.palette.swatches.eraseIdx index
    let gen := app.generated_colors.eraseIdx index
    let cur := if swatches.length ≤ app.current_swatch_index
               then swatches.length - 1 else app.current_swatch_index
    ⟨⟨swatches⟩, cur, gen⟩
  else app

/-- `App::move_swatch_up`. -/
def App.move_swatch_up (app : App) (index : ℕ) : App :=
  if 0 < index ∧ index < app.palette.swatches.length then
    let swatches := list_swap app.palette.swatches index (index - 1)
    let gen := list_swap app.generated_colors index (index - 1)
    let cur := if app.current_swatch_index = index then index - 1
               else if app.current_swatch_index = index - 1 then index
               else app.current_swatch_index
    ⟨⟨swatches⟩, cur, gen⟩
  else app

/-- `App::move_swatch_down`. -/
def App.move_swatch_down (app : App) (index : ℕ) : App :=
  if index + 1 < app.palette.swatches.length then
    let swatches := list_swap app.palette.swatches index (index + 1)
    let gen := list_swap app.generated_colors index (index + 1)
    let cur := if app.current_swatch_index = index then index + 1
               else if app.current_swatch_index = index + 1 then index
               else app.current_swatch_index
    ⟨⟨swatches⟩, cur, gen⟩
  else app

/-- `App::duplicate_swatch`: clone, insert after the original, fill the
new cache slot. -/
def App.duplicate_swatch (conv : Conv) (app : App) (index : ℕ) : App :=
  match app.palette.swatches.get? index with
  | some sw =>
      let swatches := list_insert_at app.palette.swatches (index + 1) sw
      let gen := list_insert_at app.generated_colors (index + 1) (some [])
      let gen := match swatches.get? (index + 1) with
        | some sw2 => gen.set (index + 1) (generate_colors conv sw2)
        | none => gen
      { app with palette := ⟨swatches⟩, generated_colors := gen }
  | none => app

/-- `App::swap_swatches`. -/
def App.swap_swatches (app : App) (a b : ℕ) : App :=
  let len := app.palette.swatches.length
  if len ≤ a ∨ len ≤ b ∨ a = b then app
  else
    let swatches := list_swap app.palette.swatches a b
    let gen := list_swap app.generated_colors a b
    let cur := if app.current_swatch_index = a then b
               else if app.current_swatch_index = b then a
               else app.current_swatch_index
    ⟨⟨swatches⟩, cur, gen⟩

/-- `App::select_swatch`. -/
def App.select_swatch (app : App) (index : ℕ) : App :=
  if index < app.palette.swatches.length then
    { app with current_swatch_index := index }
  else app

/-- The cache/selection invariant of the App layer. -/
def App.Inv (app : App) : Prop :=
  app.generated_colors.length = app.palette.swatches.length ∧
    app.current_swatch_index < app.palette.swatches.length

instance (app : App) : Decidable app.Inv := by
  unfold App.Inv; infer_instance

/-- A control-point position as stored in an `f32` field: `none` is NaN,
`some q` a (finite) non-NaN value. -/
structure ControlPointF where
  id : ℕ
  position : Option ℚ
  color : Color
deriving DecidableEq, Repr

/-- `f32::partial_cmp` on positions: defined exactly when neither side is
NaN.  (Finite rationals model the non-NaN values.) -/
def nanCmp (x y : Option ℚ) : Option Ordering :=
  match x, y with
  | some a, some b => some (compare a b)
  | _, _ => none

/-- One insertion step of a stable sort driven by the panicking
comparator `a.position.partial_cmp(&b.position).unwrap()`; `none` models
the `unwrap` panic on a NaN comparison. -/
def insertByPos (c : ControlPointF) : List ControlPointF → Option (List ControlPointF)
  | [] => some [c]
  | d :: rest =>
      match nanCmp c.position d.position with
      | some Ordering.gt =>
          (insertByPos c rest).map (fun r => d :: r)
      | some _ => some (c :: d :: rest)
      | none => none

/-- `Swatch::sort_control_points`, modelled as a stable insertion sort in
the panic monad: the result is `none` exactly when the comparator hits a
NaN position.  (Rust's `sort_by` is a stable merge sort; for a comparator
that is a total order on the values present, a stable insertion sort
produces the same list.) -/
def sort_control_points : List ControlPointF → Option (List ControlPointF)
  | [] => some []
  | c :: rest => do
      let r ← sort_control_points rest
      insertByPos c r

/-! ### Hue-folding lemmas -/

theorem foldDown_le (d : ℚ) : foldDown d ≤ 180 := by
  induction d using foldDown.induct with
  | case1 d h ih => rw [foldDown, dif_pos h]; exact ih
  | case2 d h => rw [foldDown, dif_neg h]; linarith [not_lt.mp h]

theorem foldDown_congr (d : ℚ) : ∃ k : ℤ, foldDown d = d + 360 * k := by
  induction d using foldDown.induct with
  | case1 d h ih =>
      obtain ⟨k, hk⟩ := ih
      exact ⟨k - 1, by rw [foldDown, dif_pos h, hk]; push_cast; ring⟩
  | case2 d h => exact ⟨0, by rw [foldDown, dif_neg h]; push_cast; ring⟩

theorem foldUp_ge (d : ℚ) : -180 ≤ foldUp d := by
  induction d using foldUp.induct with
  | case1 d h ih => rw [foldUp, dif_pos h]; exact ih
  | case2 d h => rw [foldUp, dif_neg h]; linarith [not_lt.mp h]

theorem foldUp_le (d : ℚ) (hd : d ≤ 180) : foldUp d ≤ 180 := by
  induction d using foldUp.induct with
  | case1 d h ih => rw [foldUp, dif_pos h]; exact ih (by linarith)
  | case2 d h => rw [foldUp, dif_neg h]; exact hd

theorem foldUp_congr (d : ℚ) : ∃ k : ℤ, foldUp d = d + 360 * k := by
  induction d using foldUp.induct with
  | case1 d h ih =>
      obtain ⟨k, hk⟩ := ih
      exact ⟨k + 1, by rw [foldUp, dif_pos h, hk]; push_cast; ring⟩
  | case2 d h => exact ⟨0, by rw [foldUp, dif_neg h]; push_cast; ring⟩

theorem norm1_nonneg (r : ℚ) : 0 ≤ norm1 r := by
  induction r using norm1.induct with
  | case1 r h ih => rw [norm1, dif_pos h]; exact ih
  | case2 r h => rw [norm1, dif_neg h]; linarith [not_lt.mp h]

theorem norm1_congr (r : ℚ) : ∃ k : ℤ, norm1 r = r + 360 * k := by
  induction r using norm1.induct with
  | case1 r h ih =>
      obtain ⟨k, hk⟩ := ih
      exact ⟨k + 1, by rw [norm1, dif_pos h, hk]; push_cast; ring⟩
  | case2 r h => exact ⟨0, by rw [norm1, dif_neg h]; push_cast; ring⟩

theorem norm2_lt (r : ℚ) : norm2 r < 360 := by
  induction r using norm2.induct with
  | case1 r h ih => rw [norm2, dif_pos h]; exact ih
  | case2 r h => rw [norm2, dif_neg h]; linarith [not_le.mp h]

theorem norm2_nonneg (r : ℚ) (hr : 0 ≤ r) : 0 ≤ norm2 r := by
  induction r using norm2.induct with
  | case1 r h ih => rw [norm2, dif_pos h]; exact ih (by linarith)
  | case2 r h => rw [norm2, dif_neg h]; exact hr

theorem norm2_congr (r : ℚ) : ∃ k : ℤ, norm2 r = r + 360 * k := by
  induction r using norm2.induct with
  | case1 r h ih =>
      obtain ⟨k, hk⟩ := ih
      exact ⟨k - 1, by rw [norm2, dif_pos h, hk]; push_cast; ring⟩
  | case2 r h => exact ⟨0, by rw [norm2, dif_neg h]; push_cast; ring⟩

theorem norm1_eq_self (r : ℚ) (hr : 0 ≤ r) : norm1 r = r := by
  rw [norm1, dif_neg (by linarith)]

theorem norm2_eq_self (r : ℚ) (hr : r < 360) : norm2 r = r := by
  rw [norm2, dif_neg (by linarith)]

/-- The wrap-around normalization keeps the value in the same residue
class mod 360 and lands in [0, 360). -/
theorem norm_spec (r : ℚ) :
    (∃ k : ℤ, norm2 (norm1 r) = r + 360 * k) ∧
      0 ≤ norm2 (norm1 r) ∧ norm2 (norm1 r) < 360 := by
  obtain ⟨k1, hk1⟩ := norm1_congr r
  obtain ⟨k2, hk2⟩ := norm2_congr (norm1 r)
  refine ⟨⟨k1 + k2, ?_⟩, norm2_nonneg _ (norm1_nonneg r), norm2_lt _⟩
  rw [hk2, hk1]; push_cast; ring

/-- Two values in [0, 360) that agree mod 360 are equal. -/
theorem hue_mod_unique (x y : ℚ) (hx0 : 0 ≤ x) (hx1 : x < 360)
    (hy0 : 0 ≤ y) (hy1 : y < 360) (h : ∃ k : ℤ, x = y + 360 * k) : x = y := by
  obtain ⟨k, hk⟩ := h
  have hk0 : (k : ℚ) = 0 := by
    by_contra hne
    have : (1 : ℚ) ≤ |(k : ℚ)| := by
      have : k ≠ 0 := by exact_mod_cast fun h0 => hne (by exact_mod_cast congrArg Int.cast h0)
      calc (1 : ℚ) = ((1 : ℤ) : ℚ) := by norm_num
        _ ≤ |(k : ℚ)| := by
            rw [← Int.cast_abs]
            exact_mod_cast Int.one_le_abs this
    have habs : |x - y| < 360 := abs_sub_lt_of_nonneg_of_lt hx0 hx1 hy0 hy1
    have : x - y = 360 * k := by linarith [hk]
    rw [this, abs_mul] at habs
    have : |(360 : ℚ)| = 360 := by norm_num
    nlinarith [abs_nonneg ((k : ℚ))]
  have : x = y + 360 * ((k : ℚ)) := by exact_mod_cast hk
  rw [hk0] at this; linarith

/-- Evaluation helper: `foldDown` at arguments at most 180 is the
identity. -/
theorem foldDown_id (d : ℚ) (hd : d ≤ 180) : foldDown d = d := by
  rw [foldDown, dif_neg (by linarith)]

/-- Evaluation helper: `foldUp` at arguments at least -180 is the
identity. -/
theorem foldUp_id (d : ℚ) (hd : -180 ≤ d) : foldUp d = d := by
  rw [foldUp, dif_neg (by linarith)]

/-- Blending hue 350 toward hue 10 at t = 1/2 yields hue 0. -/
theorem lerp_hue_350_10 : lerp_hue 350 10 (1/2) = 0 := by
  have e1 : foldDown ((10 : ℚ) - 350) = -340 := by
    rw [foldDown_id _ (by norm_num)]; norm_num
  have e2 : foldUp (-340 : ℚ) = 20 := by
    rw [foldUp, dif_pos (by norm_num)]
    norm_num
    exact foldUp_id _ (by norm_num)
  unfold lerp_hue
  rw [e1, e2]
  show norm2 (norm1 ((350 : ℚ) + 20 * (1/2))) = 0
  have e3 : (350 : ℚ) + 20 * (1/2) = 360 := by norm_num
  rw [e3, norm1_eq_self 360 (by norm_num), norm2, dif_pos (by norm_num)]
  have e4 : (360 : ℚ) - 360 = 0 := by norm_num
  rw [e4]
  exact norm2_eq_self 0 (by norm_num)

/-- C3 (amended): the cylindrical hue blend folds `h2 − h1` into the
closed interval [−180, 180] (adding or subtracting 360 as needed, so the
folded delta agrees with `h2 − h1` mod 360 and the shorter arc is taken),
returns `h1 + delta·t` renormalized into [0, 360), and blending hue 350°
toward hue 10° at t = 1/2 yields hue 0. -/
theorem lerp_hue_shortest_arc (h1 h2 t : ℚ) :
    (-180 ≤ foldUp (foldDown (h2 - h1)) ∧ foldUp (foldDown (h2 - h1)) ≤ 180) ∧
      (∃ k : ℤ, foldUp (foldDown (h2 - h1)) = (h2 - h1) + 360 * k) ∧
      lerp_hue h1 h2 t = norm2 (norm1 (h1 + foldUp (foldDown (h2 - h1)) * t)) ∧
      (0 ≤ lerp_hue h1 h2 t ∧ lerp_hue h1 h2 t < 360) ∧
      lerp_hue 350 10 (1/2) = 0 := by
  refine ⟨⟨foldUp_ge _, foldUp_le _ (foldDown_le _)⟩, ?_, rfl, ?_, lerp_hue_350_10⟩
  · obtain ⟨k1, hk1⟩ := foldDown_congr (h2 - h1)
    obtain ⟨k2, hk2⟩ := foldUp_congr (foldDown (h2 - h1))
    exact ⟨k1 + k2, by rw [hk2, hk1]; push_cast; ring⟩
  · have := norm_spec (h1 + foldUp (foldDown (h2 - h1)) * t)
    exact ⟨this.2.1, this.2.2⟩

/-- C3 counterexample: the claim says the delta is folded into the
half-open interval (−180, 180], but for h1 = 180, h2 = 0 the code keeps
the folded delta at exactly −180, which that interval excludes. -/
theorem lerp_hue_fold_not_half_open :
    foldUp (foldDown ((0 : ℚ) - 180)) = -180 ∧
      ¬ (-180 < foldUp (foldDown ((0 : ℚ) - 180))) := by
  have e1 : foldDown ((0 : ℚ) - 180) = -180 := by
    rw [foldDown_id _ (by norm_num)]; norm_num
  have e2 : foldUp (-180 : ℚ) = -180 := foldUp_id _ (by norm_num)
  rw [e1, e2]
  norm_num

/-! ### Concrete two-anchor linear RGB scenario (C1) -/

/-- The concrete ramp of the scenario: anchors (240,230,220) at 0 and
(20,20,40) at 1, Linear curve, RGB space, size 3. -/
def linear_rgb_swatch : Swatch :=
  ⟨3, [⟨0, 0, Color.from_rgb 240 230 220⟩, ⟨1, 1, Color.from_rgb 20 20 40⟩],
   CurveType.linear 1, ColorSpace.rgb, 2⟩

set_option maxHeartbeats 1000000 in
theorem linear_rgb_swatch_sample0 (conv : Conv) :
    sample_at conv linear_rgb_swatch 0 = some (Color.from_rgb 240 230 220) := by
  norm_num [linear_rgb_swatch, sample_at, interpolate_between,
    find_bracketing_points, find_bracketing_aux, lerp_color, lerp_rgb, lerp_f32,
    rust_round, to_u8, clampQ, CurveType.sample, Color.from_rgb, Color.from_rgba]
  decide

set_option maxHeartbeats 1000000 in
theorem linear_rgb_swatch_sample_half (conv : Conv) :
    sample_at conv linear_rgb_swatch (1/2) = some (Color.from_rgb 130 125 130) := by
  norm_num [linear_rgb_swatch, sample_at, interpolate_between,
    find_bracketing_points, find_bracketing_aux, lerp_color, lerp_rgb, lerp_f32,
    rust_round, to_u8, clampQ, CurveType.sample, Color.from_rgb, Color.from_rgba]
  decide

set_option maxHeartbeats 1000000 in
theorem linear_rgb_swatch_sample1 (conv : Conv) :
    sample_at conv linear_rgb_swatch 1 = some (Color.from_rgb 20 20 40) := by
  norm_num [linear_rgb_swatch, sample_at, interpolate_between,
    find_bracketing_points, find_bracketing_aux, lerp_color, lerp_rgb, lerp_f32,
    rust_round, to_u8, clampQ, CurveType.sample, Color.from_rgb, Color.from_rgba]
  decide

/-- C1: with the two control points (240,230,220) at 0 and (20,20,40)
at 1, a Linear curve, the RGB space and size 3, `generate_colors` yields
exactly [(240,230,220), (130,125,130), (20,20,40)]; the middle element is
the rounded per-channel average of the two anchors. -/
theorem generate_colors_linear_rgb_scenario (conv : Conv) :
    generate_colors conv linear_rgb_swatch =
      some [Color.from_rgb 240 230 220, Color.from_rgb 130 125 130,
            Color.from_rgb 20 20 40] := by
  have h0 := linear_rgb_swatch_sample0 conv
  have hh := linear_rgb_swatch_sample_half conv
  have h1 := linear_rgb_swatch_sample1 conv
  have hr : List.range linear_rgb_swatch.size = [0, 1, 2] := rfl
  unfold generate_colors
  rw [if_neg (by decide : ¬ (linear_rgb_swatch.control_points = []))]
  rw [hr]
  simp only [List.mapM, List.mapM.loop]
  norm_num [show (1:ℕ) < linear_rgb_swatch.size from by decide,
    show ((linear_rgb_swatch.size - 1 : ℕ) : ℚ) = 2 from by
      norm_num [linear_rgb_swatch]]
  rw [h0, hh, h1]
  rfl

/-! ### Zero control points (C8) -/

/-- C8: a swatch with no control points generates, for any configured
size, a sequence of exactly that length with every element pure black. -/
theorem generate_colors_empty_all_black (conv : Conv) (s : Swatch)
    (h : s.control_points = []) :
    ∃ l, generate_colors conv s = some l ∧ l.length = s.size ∧
      ∀ c ∈ l, c = Color.black := by
  refine ⟨List.replicate s.size Color.black, ?_, List.length_replicate _ _, ?_⟩
  · unfold generate_colors
    rw [if_pos h]
  · intro c hc
    exact List.eq_of_mem_replicate hc

/-- Witness for C8 at a concrete empty swatch of size 5. -/
theorem generate_colors_empty_all_black_witness :
    ∃ l, generate_colors Conv.triv ⟨5, [], CurveType.linear 1, ColorSpace.rgb, 0⟩ = some l ∧
      l.length = (5 : ℕ) ∧ ∀ c ∈ l, c = Color.black :=
  generate_colors_empty_all_black Conv.triv ⟨5, [], CurveType.linear 1, ColorSpace.rgb, 0⟩ rfl

/-! ### Extrapolation ignores alpha; blending interpolates it (C9) -/

/-- C9: RGB extrapolation always returns a fully opaque color (alpha
255) whatever the reference's alpha, while RGB blending interpolates the
alpha channel (e.g. alphas 100 and 200 blend to 150 at t = 1/2). -/
theorem extrapolate_rgb_opaque_alpha :
    (∀ (reference : Color) (direction : ℚ),
        (extrapolate_rgb reference direction).a = 255) ∧
      (lerp_rgb ⟨10, 20, 30, 100⟩ ⟨10, 20, 30, 200⟩ (1/2)).a = 150 := by
  constructor
  · intro reference direction
    rfl
  · norm_num [lerp_rgb, lerp_f32, rust_round, to_u8, Color.from_rgba]
    decide

/-! ### Bracketing scan on sorted control points (C10) -/

theorem find_bracketing_aux_sorted (t : ℚ) :
    ∀ cps : List ControlPoint, 2 ≤ cps.length →
      List.Pairwise (fun a b => a.position ≤ b.position) cps →
      (∀ c, cps.head? = some c → c.position ≤ t) →
      (∀ c, cps.getLast? = some c → t ≤ c.position) →
      ∃ a b i, cps.get? i = some a ∧ cps.get? (i + 1) = some b ∧
        a.position ≤ t ∧ t ≤ b.position ∧
        find_bracketing_aux t cps = some (a, b)
  | [], h, _, _, _ => by simp at h
  | [c], h, _, _, _ => by simp at h
  | c1 :: c2 :: rest, _, hs, hf, hl => by
      by_cases hc : t ≤ c2.position
      · refine ⟨c1, c2, 0, rfl, rfl, hf c1 rfl, hc, ?_⟩
        unfold find_bracketing_aux
        rw [if_pos ⟨hf c1 rfl, hc⟩]
      · push_neg at hc
        cases rest with
        | nil =>
            have hlast : t ≤ c2.position := hl c2 rfl
            linarith
        | cons c3 rest2 =>
            have hf' : ∀ c, (c2 :: c3 :: rest2).head? = some c → c.position ≤ t := by
              intro c h
              have hcc : c = c2 := by simpa using h.symm
              subst hcc
              linarith
            have hl' : ∀ c, (c2 :: c3 :: rest2).getLast? = some c → t ≤ c.position := by
              intro c h
              exact hl c (by simpa using h)
            obtain ⟨a, b, i, h1, h2, h3, h4, h5⟩ :=
              find_bracketing_aux_sorted t (c2 :: c3 :: rest2) (by simp)
                hs.tail hf' hl'
            refine ⟨a, b, i + 1, by simpa using h1, by simpa using h2, h3, h4, ?_⟩
            unfold find_bracketing_aux
            rw [if_neg (fun hcon => absurd hcon.2 (not_le.mpr hc))]
            exact h5

/-- C10: on a sorted list of at least two control points, sampling a `t`
between the first and last positions, the linear scan returns an adjacent
pair `(cp[i], cp[i+1])` with `cp[i].position ≤ t ≤ cp[i+1].position`; the
`(last, last)` fallback after the loop is unreachable (the scan itself
already yields `some`, and `find_bracketing_points` returns its result). -/
theorem find_bracketing_points_sorted_in_range
    (cps : List ControlPoint) (t : ℚ)
    (hlen : 2 ≤ cps.length)
    (hs : List.Pairwise (fun a b => a.position ≤ b.position) cps)
    (hfirst : ∀ c, cps.head? = some c → c.position ≤ t)
    (hlast : ∀ c, cps.getLast? = some c → t ≤ c.position) :
    ∃ a b i, cps.get? i = some a ∧ cps.get? (i + 1) = some b ∧
      a.position ≤ t ∧ t ≤ b.position ∧
      find_bracketing_aux t cps = some (a, b) ∧
      find_bracketing_points cps t = some (a, b) := by
  obtain ⟨a, b, i, h1, h2, h3, h4, h5⟩ :=
    find_bracketing_aux_sorted t cps hlen hs hfirst hlast
  refine ⟨a, b, i, h1, h2, h3, h4, h5, ?_⟩
  unfold find_bracketing_points
  rw [h5]

/-- Witness for C10 on the concrete two-anchor list at t = 1/2. -/
theorem find_bracketing_points_sorted_in_range_witness :
    ∃ a b i,
      ([⟨0, 0, Color.from_rgb 240 230 220⟩,
        ⟨1, 1, Color.from_rgb 20 20 40⟩] : List ControlPoint).get? i = some a ∧
      ([⟨0, 0, Color.from_rgb 240 230 220⟩,
        ⟨1, 1, Color.from_rgb 20 20 40⟩] : List ControlPoint).get? (i + 1) = some b ∧
      a.position ≤ (1/2 : ℚ) ∧ (1/2 : ℚ) ≤ b.position ∧
      find_bracketing_aux (1/2)
        [⟨0, 0, Color.from_rgb 240 230 220⟩, ⟨1, 1, Color.from_rgb 20 20 40⟩] =
        some (a, b) ∧
      find_bracketing_points
        [⟨0, 0, Color.from_rgb 240 230 220⟩, ⟨1, 1, Color.from_rgb 20 20 40⟩]
        (1/2) = some (a, b) :=
  find_bracketing_points_sorted_in_range
    [⟨0, 0, Color.from_rgb 240 230 220⟩, ⟨1, 1, Color.from_rgb 20 20 40⟩]
    (1/2) (by simp)
    (by
      refine List.pairwise_cons.mpr ⟨?_, ?_⟩
      · intro x hx
        simp at hx
        subst hx
        norm_num
      · simp)
    (by intro c h; have hc : c = ⟨0, 0, Color.from_rgb 240 230 220⟩ := by simpa using h.symm
        subst hc; norm_num)
    (by intro c h; have hc : c = ⟨1, 1, Color.from_rgb 20 20 40⟩ := by simpa using h.symm
        subst hc; norm_num)

/-! ### Endpoint behaviour of the blend operations (toward C2) -/

theorem lerp_f32_zero (a b : ℚ) : lerp_f32 a b 0 = a := by
  unfold lerp_f32; ring

theorem lerp_f32_one (a b : ℚ) : lerp_f32 a b 1 = b := by
  unfold lerp_f32; ring

theorem clampQ_zero_01 : clampQ 0 0 1 = 0 := by norm_num [clampQ]

theorem clampQ_one_01 : clampQ 1 0 1 = 1 := by norm_num [clampQ]

theorem rust_round_natCast (n : ℕ) : rust_round (n : ℚ) = n := by
  unfold rust_round
  rw [if_pos (by positivity)]
  have h1 : ((n : ℤ) : ℚ) ≤ (n : ℚ) + 1/2 := by push_cast; linarith
  have h2 : (n : ℚ) + 1/2 < (n : ℤ) + 1 := by push_cast; linarith
  exact Int.floor_eq_iff.mpr ⟨h1, h2⟩

theorem to_u8_natCast (n : ℕ) (h : n ≤ 255) : to_u8 (n : ℤ) = n := by
  unfold to_u8
  omega

theorem lerp_rgb_zero (c1 c2 : Color) (h : c1.Valid) : lerp_rgb c1 c2 0 = c1 := by
  obtain ⟨r, g, b, a⟩ := c1
  obtain ⟨hr, hg, hb, ha⟩ := h
  unfold lerp_rgb
  rw [lerp_f32_zero, lerp_f32_zero, lerp_f32_zero, lerp_f32_zero,
    rust_round_natCast, rust_round_natCast, rust_round_natCast, rust_round_natCast,
    to_u8_natCast _ hr, to_u8_natCast _ hg, to_u8_natCast _ hb, to_u8_natCast _ ha]
  rfl

theorem lerp_rgb_one (c1 c2 : Color) (h : c2.Valid) : lerp_rgb c1 c2 1 = c2 := by
  obtain ⟨r, g, b, a⟩ := c2
  obtain ⟨hr, hg, hb, ha⟩ := h
  unfold lerp_rgb
  rw [lerp_f32_one, lerp_f32_one, lerp_f32_one, lerp_f32_one,
    rust_round_natCast, rust_round_natCast, rust_round_natCast, rust_round_natCast,
    to_u8_natCast _ hr, to_u8_natCast _ hg, to_u8_natCast _ hb, to_u8_natCast _ ha]
  rfl

theorem lerp_hue_zero (h1 h2 : ℚ) (ha : 0 ≤ h1) (hb : h1 < 360) :
    lerp_hue h1 h2 0 = h1 := by
  show norm2 (norm1 (h1 + foldUp (foldDown (h2 - h1)) * 0)) = h1
  have he : h1 + foldUp (foldDown (h2 - h1)) * 0 = h1 := by ring
  rw [he, norm1_eq_self h1 ha, norm2_eq_self h1 hb]

theorem lerp_hue_one (h1 h2 : ℚ) (ha : 0 ≤ h2) (hb : h2 < 360) :
    lerp_hue h1 h2 1 = h2 := by
  show norm2 (norm1 (h1 + foldUp (foldDown (h2 - h1)) * 1)) = h2
  obtain ⟨k1, hk1⟩ := foldDown_congr (h2 - h1)
  obtain ⟨k2, hk2⟩ := foldUp_congr (foldDown (h2 - h1))
  obtain ⟨⟨k3, hk3⟩, hge, hlt⟩ := norm_spec (h1 + foldUp (foldDown (h2 - h1)) * 1)
  refine hue_mod_unique _ _ hge hlt ha hb ⟨k1 + k2 + k3, ?_⟩
  rw [hk3, hk2, hk1]
  push_cast
  ring

/-- Whether a conversion record emits hues normalized into [0, 360); the
source's `rgb_to_oklch` always does (`atan2` degrees plus a +360 fixup). -/
def Conv.HueOk (conv : Conv) : Prop :=
  ∀ c, 0 ≤ (conv.rgb_to_oklch c).2.2 ∧ (conv.rgb_to_oklch c).2.2 < 360

theorem lerp_color_zero (conv : Conv) (space : ColorSpace) (c1 c2 : Color)
    (hv : c1.Valid) (hh : conv.HueOk) :
    lerp_color conv c1 c2 0 space = c1 ∨
      lerp_color conv c1 c2 0 space = space_roundtrip conv space c1 := by
  cases space with
  | rgb =>
      left
      show lerp_rgb c1 c2 (clampQ 0 0 1) = c1
      rw [clampQ_zero_01]
      exact lerp_rgb_zero c1 c2 hv
  | okLab =>
      right
      show lerp_oklab conv c1 c2 (clampQ 0 0 1) = conv.oklab_to_rgb (conv.rgb_to_oklab c1)
      rw [clampQ_zero_01]
      show conv.oklab_to_rgb
          (lerp_f32 (conv.rgb_to_oklab c1).1 (conv.rgb_to_oklab c2).1 0,
           lerp_f32 (conv.rgb_to_oklab c1).2.1 (conv.rgb_to_oklab c2).2.1 0,
           lerp_f32 (conv.rgb_to_oklab c1).2.2 (conv.rgb_to_oklab c2).2.2 0) =
        conv.oklab_to_rgb (conv.rgb_to_oklab c1)
      rw [lerp_f32_zero, lerp_f32_zero, lerp_f32_zero]
  | okLCh =>
      right
      show lerp_oklch conv c1 c2 (clampQ 0 0 1) = conv.oklch_to_rgb (conv.rgb_to_oklch c1)
      rw [clampQ_zero_01]
      show conv.oklch_to_rgb
          (lerp_f32 (conv.rgb_to_oklch c1).1 (conv.rgb_to_oklch c2).1 0,
           lerp_f32 (conv.rgb_to_oklch c1).2.1 (conv.rgb_to_oklch c2).2.1 0,
           lerp_hue (conv.rgb_to_oklch c1).2.2 (conv.rgb_to_oklch c2).2.2 0) =
        conv.oklch_to_rgb (conv.rgb_to_oklch c1)
      obtain ⟨ha, hb⟩ := hh c1
      rw [lerp_f32_zero, lerp_f32_zero, lerp_hue_zero _ _ ha hb]

theorem lerp_color_one (conv : Conv) (space : ColorSpace) (c1 c2 : Color)
    (hv : c2.Valid) (hh : conv.HueOk) :
    lerp_color conv c1 c2 1 space = c2 ∨
      lerp_color conv c1 c2 1 space = space_roundtrip conv space c2 := by
  cases space with
  | rgb =>
      left
      show lerp_rgb c1 c2 (clampQ 1 0 1) = c2
      rw [clampQ_one_01]
      exact lerp_rgb_one c1 c2 hv
  | okLab =>
      right
      show lerp_oklab conv c1 c2 (clampQ 1 0 1) = conv.oklab_to_rgb (conv.rgb_to_oklab c2)
      rw [clampQ_one_01]
      show conv.oklab_to_rgb
          (lerp_f32 (conv.rgb_to_oklab c1).1 (conv.rgb_to_oklab c2).1 1,
           lerp_f32 (conv.rgb_to_oklab c1).2.1 (conv.rgb_to_oklab c2).2.1 1,
           lerp_f32 (conv.rgb_to_oklab c1).2.2 (conv.rgb_to_oklab c2).2.2 1) =
        conv.oklab_to_rgb (conv.rgb_to_oklab c2)
      rw [lerp_f32_one, lerp_f32_one, lerp_f32_one]
  | okLCh =>
      right
      show lerp_oklch conv c1 c2 (clampQ 1 0 1) = conv.oklch_to_rgb (conv.rgb_to_oklch c2)
      rw [clampQ_one_01]
      show conv.oklch_to_rgb
          (lerp_f32 (conv.rgb_to_oklch c1).1 (conv.rgb_to_oklch c2).1 1,
           lerp_f32 (conv.rgb_to_oklch c1).2.1 (conv.rgb_to_oklch c2).2.1 1,
           lerp_hue (conv.rgb_to_oklch c1).2.2 (conv.rgb_to_oklch c2).2.2 1) =
        conv.oklch_to_rgb (conv.rgb_to_oklch c2)
      obtain ⟨ha, hb⟩ := hh c2
      rw [lerp_f32_one, lerp_f32_one, lerp_hue_one _ _ ha hb]

/-! ### Sorted-list facts (toward C2) -/

theorem sorted_head_le (cps : List ControlPoint)
    (hs : List.Pairwise (fun a b => a.position ≤ b.position) cps)
    (cp : ControlPoint) (hmem : cp ∈ cps)
    (c0 : ControlPoint) (hh : cps.head? = some c0) : c0.position ≤ cp.position := by
  cases cps with
  | nil => simp at hmem
  | cons a l =>
      have hac : a = c0 := by simpa using hh
      subst hac
      rcases List.mem_cons.mp hmem with hcp | hcp
      · subst hcp; exact le_refl _
      · exact (List.pairwise_cons.mp hs).1 cp hcp

theorem le_sorted_getLast (cps : List ControlPoint)
    (hs : List.Pairwise (fun a b => a.position ≤ b.position) cps)
    (cp : ControlPoint) (hmem : cp ∈ cps)
    (L : ControlPoint) (hL : cps.getLast? = some L) : cp.position ≤ L.position := by
  induction cps with
  | nil => simp at hmem
  | cons a l ih =>
      cases l with
      | nil =>
          have h1 : cp = a := by simpa using hmem
          have h2 : L = a := by simpa using hL.symm
          subst h1; subst h2; exact le_refl _
      | cons b l2 =>
          have hL' : (b :: l2).getLast? = some L := by
            rwa [List.getLast?_cons_cons] at hL
          have hLmem : L ∈ b :: l2 := by
            obtain ⟨hne, hEq⟩ := List.mem_getLast?_eq_getLast hL'
            rw [hEq]
            exact List.getLast_mem hne
          rcases List.mem_cons.mp hmem with hcp | hcp
          · subst hcp
            exact (List.pairwise_cons.mp hs).1 L hLmem
          · exact ih (List.pairwise_cons.mp hs).2 hcp hL'

theorem anchor_at_bracket (cps : List ControlPoint)
    (hs : List.Pairwise (fun a b => a.position ≤ b.position) cps)
    (cp a b : ControlPoint) (i : ℕ)
    (hmem : cp ∈ cps)
    (h1 : cps.get? i = some a) (h2 : cps.get? (i + 1) = some b)
    (h3 : a.position ≤ cp.position) (h4 : cp.position ≤ b.position) :
    cp.position = a.position ∨ cp.position = b.position := by
  obtain ⟨⟨j, hj⟩, hget⟩ := List.mem_iff_get.mp hmem
  obtain ⟨hi, ha⟩ := List.get?_eq_some.mp h1
  obtain ⟨hi2, hb⟩ := List.get?_eq_some.mp h2
  have hmono := List.pairwise_iff_get.mp hs
  by_cases hji : j ≤ i
  · left
    have hle : cp.position ≤ a.position := by
      rcases Nat.lt_or_ge j i with hlt | hge
      · have := hmono ⟨j, hj⟩ ⟨i, hi⟩ hlt
        rw [hget, ha] at this
        exact this
      · have hji' : j = i := le_antisymm hji hge
        subst hji'
        rw [← hget, ha.symm]
    exact le_antisymm (by linarith) h3 |>.symm ▸ le_antisymm hle h3 ▸ rfl
  · right
    push_neg at hji
    have hij : i + 1 ≤ j := hji
    have hle : b.position ≤ cp.position := by
      rcases Nat.lt_or_ge (i + 1) j with hlt | hge
      · have := hmono ⟨i + 1, hi2⟩ ⟨j, hj⟩ hlt
        rw [hget, hb] at this
        exact this
      · have hji' : j = i + 1 := le_antisymm hge hij
        subst hji'
        rw [← hget, hb.symm]
    exact le_antisymm h4 hle

/-! ### Sampling at an anchor position (C2) -/

/-- C2 (amended): for every Swatch whose control points are sorted, whose
interpolation curve fixes the endpoints (`sample 0 = 0` and
`sample 1 = 1`, as the engine's identity Linear curve does), whose anchor
colors are 8-bit valid, and where every control point sharing the
position of `cp` also stores `cp`'s color, sampling at `t = cp.position`
returns that stored color — exactly, or as the selected color space's
conversion round trip of it (the only drift the claim allows).  This
covers all three dispatch branches: the single-point branch (which
returns the color exactly in every space), and both bracket positions of
the between-points branch; the strict-inequality extrapolation guards
never fire at an anchor position. -/
theorem sample_at_anchor (conv : Conv) (s : Swatch) (cp : ControlPoint)
    (hmem : cp ∈ s.control_points)
    (hs : List.Pairwise (fun a b => a.position ≤ b.position) s.control_points)
    (hc0 : s.interpolation_curve.sample 0 = 0)
    (hc1 : s.interpolation_curve.sample 1 = 1)
    (hv : ∀ c ∈ s.control_points, c.color.Valid)
    (huniq : ∀ c ∈ s.control_points, c.position = cp.position → c.color = cp.color)
    (hh : conv.HueOk) :
    sample_at conv s cp.position = some cp.color ∨
      sample_at conv s cp.position = some (space_roundtrip conv s.color_space cp.color) := by
  cases hcl : s.control_points with
  | nil => rw [hcl] at hmem; simp at hmem
  | cons a0 l1 =>
    cases hl1 : l1 with
    | nil =>
        have hcps : s.control_points = [a0] := by rw [hcl, hl1]
        have hcp : cp = a0 := by
          rw [hcps] at hmem; simpa using hmem
        left
        unfold sample_at
        rw [hcps, if_neg (by simp), if_pos (by simp)]
        unfold sample_single_point
        rw [hcps, List.head?_cons, Option.map_some']
        simp only []
        rw [hcp]
        rw [if_neg (lt_irrefl _), if_neg (lt_irrefl _)]
    | cons a1 l2 =>
        have hcps : s.control_points = a0 :: a1 :: l2 := by rw [hcl, hl1]
        have hmem' : cp ∈ a0 :: a1 :: l2 := by rw [← hcps]; exact hmem
        have hs' : List.Pairwise (fun a b => a.position ≤ b.position) (a0 :: a1 :: l2) := by
          rw [← hcps]; exact hs
        have hL := List.getLast?_eq_getLast_of_ne_nil
          (l := a0 :: a1 :: l2) (by simp)
        set L := (a0 :: a1 :: l2).getLast (by simp) with hLdef
        have hfirst_le : a0.position ≤ cp.position :=
          sorted_head_le _ hs' cp hmem' a0 rfl
        have hle_last : cp.position ≤ L.position :=
          le_sorted_getLast _ hs' cp hmem' L hL
        have hf' : ∀ c, (a0 :: a1 :: l2).head? = some c → c.position ≤ cp.position := by
          intro c hhd
          have hca : c = a0 := by simpa using hhd.symm
          subst hca
          exact hfirst_le
        have hl' : ∀ c, (a0 :: a1 :: l2).getLast? = some c → cp.position ≤ c.position := by
          intro c hgl
          rw [hL] at hgl
          have hcL : c = L := by simpa using hgl.symm
          subst hcL
          exact hle_last
        obtain ⟨a, b, i, h1, h2, h3, h4, h5⟩ :=
          find_bracketing_aux_sorted cp.position (a0 :: a1 :: l2) (by simp) hs' hf' hl'
        have hfb : find_bracketing_points (a0 :: a1 :: l2) cp.position = some (a, b) := by
          unfold find_bracketing_points
          rw [h5]
        have hamem : a ∈ s.control_points := by
          rw [hcps]; exact List.get?_mem h1
        have hbmem : b ∈ s.control_points := by
          rw [hcps]; exact List.get?_mem h2
        have hsamp : sample_at conv s cp.position = interpolate_between conv s cp.position := by
          unfold sample_at
          rw [hcps, if_neg (by simp), if_neg (by simp), List.head?_cons, hL]
          show (if cp.position < a0.position then
                  some (extrapolate_before conv s cp.position a0)
                else if L.position < cp.position then
                  some (extrapolate_after conv s cp.position L)
                else interpolate_between conv s cp.position) =
              interpolate_between conv s cp.position
          rw [if_neg (not_lt.mpr hfirst_le), if_neg (not_lt.mpr hle_last)]
        rw [hsamp]
        unfold interpolate_between
        rw [hcps, hfb, Option.map_some']
        show some (lerp_color conv a.color b.color
              (s.interpolation_curve.sample
                (if 0 < b.position - a.position then
                  (cp.position - a.position) / (b.position - a.position) else 0))
              s.color_space) = some cp.color ∨
            some (lerp_color conv a.color b.color
              (s.interpolation_curve.sample
                (if 0 < b.position - a.position then
                  (cp.position - a.position) / (b.position - a.position) else 0))
              s.color_space) = some (space_roundtrip conv s.color_space cp.color)
        by_cases hseg : 0 < b.position - a.position
        · rcases anchor_at_bracket _ hs' cp a b i hmem' h1 h2 h3 h4 with heq | heq
          · rw [if_pos hseg]
            have hz : (cp.position - a.position) / (b.position - a.position) = 0 := by
              rw [heq, sub_self, zero_div]
            rw [hz, hc0]
            have hac : a.color = cp.color := huniq a hamem heq.symm
            rcases lerp_color_zero conv s.color_space a.color b.color (hv a hamem) hh with
              he | he
            · left; rw [he, hac]
            · right; rw [he, hac]
          · rw [if_pos hseg]
            have hone : (cp.position - a.position) / (b.position - a.position) = 1 := by
              rw [heq]
              exact div_self (by linarith)
            rw [hone, hc1]
            have hbc : b.color = cp.color := huniq b hbmem heq.symm
            rcases lerp_color_one conv s.color_space a.color b.color (hv b hbmem) hh with
              he | he
            · left; rw [he, hbc]
            · right; rw [he, hbc]
        · rw [if_neg hseg, hc0]
          push_neg at hseg
          have hta : cp.position = a.position :=
            le_antisymm (le_trans h4 (by linarith)) h3
          have hac : a.color = cp.color := huniq a hamem hta.symm
          rcases lerp_color_zero conv s.color_space a.color b.color (hv a hamem) hh with
            he | he
          · left; rw [he, hac]
          · right; rw [he, hac]

/-- A swatch whose Linear curve has factor 1/2: its curve does not fix
the endpoint `sample 1 = 1`. -/
def half_linear_swatch : Swatch :=
  ⟨3, [⟨0, 0, Color.black⟩, ⟨1, 1, Color.white⟩],
   CurveType.linear (1/2), ColorSpace.rgb, 2⟩

set_option maxHeartbeats 1000000 in
/-- C2 counterexample: with a Linear curve of factor 1/2, sampling this
swatch at t = 1 — the position of the anchor storing opaque white —
returns mid gray (128,128,128), not the stored color: the claim fails for
swatches whose curve does not fix the endpoints. -/
theorem sample_at_anchor_counterexample :
    (⟨1, 1, Color.white⟩ : ControlPoint) ∈ half_linear_swatch.control_points ∧
      sample_at Conv.triv half_linear_swatch 1 = some ⟨128, 128, 128, 255⟩ ∧
      sample_at Conv.triv half_linear_swatch 1 ≠
        some (⟨1, 1, Color.white⟩ : ControlPoint).color := by
  have hev : sample_at Conv.triv half_linear_swatch 1 = some ⟨128, 128, 128, 255⟩ := by
    norm_num [half_linear_swatch, sample_at, interpolate_between,
      find_bracketing_points, find_bracketing_aux, lerp_color, lerp_rgb, lerp_f32,
      rust_round, to_u8, clampQ, CurveType.sample, Color.black, Color.white,
      Color.from_rgba]
    decide
  refine ⟨by decide, hev, ?_⟩
  rw [hev]
  decide

/-- Witness for C2 at the default-style two-anchor linear RGB swatch and
its anchor at position 0. -/
theorem sample_at_anchor_witness :
    sample_at Conv.triv linear_rgb_swatch
        (⟨0, 0, Color.from_rgb 240 230 220⟩ : ControlPoint).position =
      some (⟨0, 0, Color.from_rgb 240 230 220⟩ : ControlPoint).color ∨
    sample_at Conv.triv linear_rgb_swatch
        (⟨0, 0, Color.from_rgb 240 230 220⟩ : ControlPoint).position =
      some (space_roundtrip Conv.triv linear_rgb_swatch.color_space
        (⟨0, 0, Color.from_rgb 240 230 220⟩ : ControlPoint).color) :=
  sample_at_anchor Conv.triv linear_rgb_swatch ⟨0, 0, Color.from_rgb 240 230 220⟩
    (by decide)
    (by norm_num [linear_rgb_swatch, List.pairwise_cons])
    (by norm_num [linear_rgb_swatch, CurveType.sample])
    (by norm_num [linear_rgb_swatch, CurveType.sample])
    (by decide)
    (by decide)
    (by intro c; exact ⟨le_refl 0, by show (0 : ℚ) < 360; norm_num⟩)

/-! ### App-layer invariant (C4) and remove semantics (C6) -/

theorem list_swap_length {α : Type} (l : List α) (i j : ℕ) :
    (list_swap l i j).length = l.length := by
  unfold list_swap
  cases h1 : l.get? i <;> cases h2 : l.get? j <;> simp

theorem list_insert_at_length {α : Type} (l : List α) (i : ℕ) (x : α) :
    (list_insert_at l i x).length = l.length + 1 := by
  unfold list_insert_at
  simp
  omega

theorem app_new_inv (conv : Conv) : (App.new conv).Inv := by
  unfold App.new App.regenerate_all_colors Palette.new App.Inv
  simp

theorem add_swatch_inv (conv : Conv) (app : App) (s : Swatch) (h : app.Inv) :
    (App.add_swatch conv app s).Inv := by
  obtain ⟨hlen, hidx⟩ := h
  simp only [App.add_swatch, App.Inv]
  split <;> simp [hlen] <;> omega

theorem remove_swatch_inv (app : App) (i : ℕ) (h : app.Inv) :
    (App.remove_swatch app i).Inv := by
  obtain ⟨hlen, hidx⟩ := h
  by_cases h1 : app.palette.swatches.length ≤ 1
  · simp only [App.remove_swatch, if_pos h1]
    exact ⟨hlen, hidx⟩
  · push_neg at h1
    by_cases h2 : i < app.palette.swatches.length
    · simp only [App.remove_swatch, if_neg (not_le.mpr h1), if_pos h2]
      have e1 : (app.palette.swatches.eraseIdx i).length + 1 =
          app.palette.swatches.length := List.length_eraseIdx_add_one h2
      have e2 : (app.generated_colors.eraseIdx i).length + 1 =
          app.generated_colors.length :=
        List.length_eraseIdx_add_one (by rw [hlen]; exact h2)
      constructor
      · show (app.generated_colors.eraseIdx i).length =
          (app.palette.swatches.eraseIdx i).length
        omega
      · show (if (app.palette.swatches.eraseIdx i).length ≤ app.current_swatch_index
              then (app.palette.swatches.eraseIdx i).length - 1
              else app.current_swatch_index) <
            (app.palette.swatches.eraseIdx i).length
        split <;> omega
    · simp only [App.remove_swatch, if_neg (not_le.mpr h1), if_neg h2]
      exact ⟨hlen, hidx⟩

theorem move_swatch_up_inv (app : App) (i : ℕ) (h : app.Inv) :
    (App.move_swatch_up app i).Inv := by
  obtain ⟨hlen, hidx⟩ := h
  by_cases h1 : 0 < i ∧ i < app.palette.swatches.length
  · simp only [App.move_swatch_up, if_pos h1]
    refine ⟨?_, ?_⟩
    · show (list_swap app.generated_colors i (i - 1)).length =
        (list_swap app.palette.swatches i (i - 1)).length
      rw [list_swap_length, list_swap_length, hlen]
    · show (if app.current_swatch_index = i then i - 1
            else if app.current_swatch_index = i - 1 then i
            else app.current_swatch_index) <
          (list_swap app.palette.swatches i (i - 1)).length
      rw [list_swap_length]
      split
      · omega
      · split <;> omega
  · simp only [App.move_swatch_up, if_neg h1]
    exact ⟨hlen, hidx⟩

theorem move_swatch_down_inv (app : App) (i : ℕ) (h : app.Inv) :
    (App.move_swatch_down app i).Inv := by
  obtain ⟨hlen, hidx⟩ := h
  by_cases h1 : i + 1 < app.palette.swatches.length
  · simp only [App.move_swatch_down, if_pos h1]
    refine ⟨?_, ?_⟩
    · show (list_swap app.generated_colors i (i + 1)).length =
        (list_swap app.palette.swatches i (i + 1)).length
      rw [list_swap_length, list_swap_length, hlen]
    · show (if app.current_swatch_index = i then i + 1
            else if app.current_swatch_index = i + 1 then i
            else app.current_swatch_index) <
          (list_swap app.palette.swatches i (i + 1)).length
      rw [list_swap_length]
      split
      · omega
      · split <;> omega
  · simp only [App.move_swatch_down, if_neg h1]
    exact ⟨hlen, hidx⟩

theorem duplicate_swatch_inv (conv : Conv) (app : App) (i : ℕ) (h : app.Inv) :
    (App.duplicate_swatch conv app i).Inv := by
  obtain ⟨hlen, hidx⟩ := h
  simp only [App.duplicate_swatch]
  split
  · next sw hq =>
      refine ⟨?_, ?_⟩
      · show (match (list_insert_at app.palette.swatches (i + 1) sw).get? (i + 1) with
              | some sw2 =>
                  (list_insert_at app.generated_colors (i + 1) (some [])).set (i + 1)
                    (generate_colors conv sw2)
              | none => list_insert_at app.generated_colors (i + 1) (some [])).length =
            (list_insert_at app.palette.swatches (i + 1) sw).length
        split <;> simp [list_insert_at_length, hlen]
      · show app.current_swatch_index <
          (list_insert_at app.palette.swatches (i + 1) sw).length
        rw [list_insert_at_length]
        omega
  · exact ⟨hlen, hidx⟩

theorem swap_swatches_inv (app : App) (a b : ℕ) (h : app.Inv) :
    (App.swap_swatches app a b).Inv := by
  obtain ⟨hlen, hidx⟩ := h
  by_cases h1 : app.palette.swatches.length ≤ a ∨ app.palette.swatches.length ≤ b ∨ a = b
  · simp only [App.swap_swatches, if_pos h1]
    exact ⟨hlen, hidx⟩
  · simp only [App.swap_swatches, if_neg h1]
    push_neg at h1
    refine ⟨?_, ?_⟩
    · show (list_swap app.generated_colors a b).length =
        (list_swap app.palette.swatches a b).length
      rw [list_swap_length, list_swap_length, hlen]
    · show (if app.current_swatch_index = a then b
            else if app.current_swatch_index = b then a
            else app.current_swatch_index) <
          (list_swap app.palette.swatches a b).length
      rw [list_swap_length]
      split
      · omega
      · split <;> omega

theorem select_swatch_inv (app : App) (i : ℕ) (h : app.Inv) :
    (App.select_swatch app i).Inv := by
  obtain ⟨hlen, hidx⟩ := h
  by_cases h1 : i < app.palette.swatches.length
  · simp only [App.select_swatch, if_pos h1]
    exact ⟨hlen, h1⟩
  · simp only [App.select_swatch, if_neg h1]
    exact ⟨hlen, hidx⟩

theorem regenerate_all_inv (conv : Conv) (app : App) (h : app.Inv) :
    (App.regenerate_all_colors conv app).Inv := by
  obtain ⟨hlen, hidx⟩ := h
  exact ⟨by simp [App.regenerate_all_colors], hidx⟩

theorem regenerate_current_inv (conv : Conv) (app : App) (h : app.Inv) :
    (App.regenerate_current_colors conv app).Inv := by
  obtain ⟨hlen, hidx⟩ := h
  simp only [App.regenerate_current_colors]
  split
  · split
    · exact ⟨by simp [hlen], hidx⟩
    · exact ⟨hlen, hidx⟩
  · exact ⟨hlen, hidx⟩

/-- C4: construction establishes, and every App operation preserves, the
invariant that the generated-colors cache has exactly one entry per
swatch and the current index is a valid index into the non-empty swatch
list. -/
theorem app_ops_preserve_inv (conv : Conv) (app : App) (s : Swatch)
    (i a b : ℕ) (h : app.Inv) :
    (App.new conv).Inv ∧
      (App.add_swatch conv app s).Inv ∧
      (App.remove_swatch app i).Inv ∧
      (App.move_swatch_up app i).Inv ∧
      (App.move_swatch_down app i).Inv ∧
      (App.duplicate_swatch conv app i).Inv ∧
      (App.swap_swatches app a b).Inv ∧
      (App.select_swatch app i).Inv ∧
      (App.regenerate_all_colors conv app).Inv ∧
      (App.regenerate_current_colors conv app).Inv :=
  ⟨app_new_inv conv, add_swatch_inv conv app s h, remove_swatch_inv app i h,
   move_swatch_up_inv app i h, move_swatch_down_inv app i h,
   duplicate_swatch_inv conv app i h, swap_swatches_inv app a b h,
   select_swatch_inv app i h, regenerate_all_inv conv app h,
   regenerate_current_inv conv app h⟩

/-- A one-swatch application state. -/
def app_one : App := ⟨⟨[Swatch.default]⟩, 0, [some []]⟩

/-- A two-swatch application state. -/
def app_two : App := ⟨⟨[Swatch.default, Swatch.default]⟩, 0, [some [], some []]⟩

/-- Witness for C4 at a concrete one-swatch state. -/
theorem app_ops_preserve_inv_witness :
    (App.new Conv.triv).Inv ∧
      (App.add_swatch Conv.triv app_one Swatch.default).Inv ∧
      (App.remove_swatch app_one 0).Inv ∧
      (App.move_swatch_up app_one 0).Inv ∧
      (App.move_swatch_down app_one 0).Inv ∧
      (App.duplicate_swatch Conv.triv app_one 0).Inv ∧
      (App.swap_swatches app_one 0 1).Inv ∧
      (App.select_swatch app_one 0).Inv ∧
      (App.regenerate_all_colors Conv.triv app_one).Inv ∧
      (App.regenerate_current_colors Conv.triv app_one).Inv :=
  app_ops_preserve_inv Conv.triv app_one Swatch.default 0 0 1 (by constructor <;> decide)

/-- C6: removing from a one-swatch palette is a complete no-op; with more
than one swatch and an in-bounds index, the swatch and its cache entry
are removed and the current index is clamped into the new valid range
(unchanged whenever it already lies in it). -/
theorem remove_swatch_spec (app : App) (i : ℕ) :
    (app.palette.swatches.length = 1 → App.remove_swatch app i = app) ∧
      (1 < app.palette.swatches.length → i < app.palette.swatches.length →
        (App.remove_swatch app i).palette.swatches = app.palette.swatches.eraseIdx i ∧
        (App.remove_swatch app i).generated_colors = app.generated_colors.eraseIdx i ∧
        (App.remove_swatch app i).current_swatch_index <
          (App.remove_swatch app i).palette.swatches.length ∧
        (app.current_swatch_index < app.palette.swatches.length - 1 →
          (App.remove_swatch app i).current_swatch_index = app.current_swatch_index)) := by
  constructor
  · intro h1
    simp only [App.remove_swatch, if_pos (by omega : app.palette.swatches.length ≤ 1)]
  · intro h1 h2
    have e1 : (app.palette.swatches.eraseIdx i).length + 1 =
        app.palette.swatches.length := List.length_eraseIdx_add_one h2
    simp only [App.remove_swatch, if_neg (by omega : ¬ app.palette.swatches.length ≤ 1),
      if_pos h2]
    refine ⟨trivial, trivial, ?_, ?_⟩
    · show (if (app.palette.swatches.eraseIdx i).length ≤ app.current_swatch_index
            then (app.palette.swatches.eraseIdx i).length - 1
            else app.current_swatch_index) <
          (app.palette.swatches.eraseIdx i).length
      split <;> omega
    · intro h3
      show (if (app.palette.swatches.eraseIdx i).length ≤ app.current_swatch_index
            then (app.palette.swatches.eraseIdx i).length - 1
            else app.current_swatch_index) = app.current_swatch_index
      rw [if_neg (by omega)]

/-- Witness for C6: the no-op branch on a one-swatch state and the
removal branch on a two-swatch state. -/
theorem remove_swatch_spec_witness :
    App.remove_swatch app_one 0 = app_one ∧
      (App.remove_swatch app_two 0).palette.swatches =
        app_two.palette.swatches.eraseIdx 0 ∧
      (App.remove_swatch app_two 0).generated_colors =
        app_two.generated_colors.eraseIdx 0 ∧
      (App.remove_swatch app_two 0).current_swatch_index <
        (App.remove_swatch app_two 0).palette.swatches.length ∧
      (App.remove_swatch app_two 0).current_swatch_index =
        app_two.current_swatch_index := by
  have h1 := (remove_swatch_spec app_one 0).1 (by decide)
  have h2 := (remove_swatch_spec app_two 0).2 (by decide) (by decide)
  exact ⟨h1, h2.1, h2.2.1, h2.2.2.1, h2.2.2.2 (by decide)⟩

/-! ### Totality / panic analysis (C7) -/


theorem insertByPos_sound (c : ControlPointF) (l : List ControlPointF)
    (hc : c.position ≠ none) (hl : ∀ d ∈ l, d.position ≠ none) :
    ∃ r, insertByPos c l = some r ∧ ∀ e ∈ r, e = c ∨ e ∈ l := by
  induction l with
  | nil => exact ⟨[c], rfl, by simp⟩
  | cons d rest ih =>
      obtain ⟨x, hx⟩ := Option.ne_none_iff_exists'.mp hc
      obtain ⟨y, hy⟩ := Option.ne_none_iff_exists'.mp (hl d (by simp))
      obtain ⟨r0, hr0, hmem0⟩ := ih (fun e he => hl e (by simp [he]))
      unfold insertByPos
      rw [hx, hy]
      simp only [nanCmp]
      cases hcmp : compare x y with
      | lt => exact ⟨c :: d :: rest, rfl, by simp⟩
      | eq => exact ⟨c :: d :: rest, rfl, by simp⟩
      | gt =>
          refine ⟨d :: r0, ?_, ?_⟩
          · rw [hr0, Option.map_some']
          · intro e he
            rcases List.mem_cons.mp he with he1 | he1
            · right; simp [he1]
            · rcases hmem0 e he1 with he2 | he2
              · left; exact he2
              · right; simp [he2]

theorem sort_control_points_sound (l : List ControlPointF)
    (hl : ∀ d ∈ l, d.position ≠ none) :
    ∃ r, sort_control_points l = some r ∧ ∀ e ∈ r, e ∈ l := by
  induction l with
  | nil => exact ⟨[], rfl, by simp⟩
  | cons c rest ih =>
      obtain ⟨r0, hr0, hmem0⟩ := ih (fun e he => hl e (by simp [he]))
      have hr0pos : ∀ e ∈ r0, e.position ≠ none :=
        fun e he => hl e (by simp [hmem0 e he])
      obtain ⟨r1, hr1, hmem1⟩ :=
        insertByPos_sound c r0 (hl c (by simp)) hr0pos
      refine ⟨r1, ?_, ?_⟩
      · unfold sort_control_points
        rw [hr0]
        show insertByPos c r0 = some r1
        exact hr1
      · intro e he
        rcases hmem1 e he with he1 | he1
        · simp [he1]
        · simp [hmem0 e he1]

/-- The sort comparator panics only on a NaN position: a failed sort
exhibits a NaN. -/
theorem sort_control_points_none_imp (l : List ControlPointF)
    (h : sort_control_points l = none) : ∃ d ∈ l, d.position = none := by
  by_contra hcon
  push_neg at hcon
  obtain ⟨r, hr, _⟩ := sort_control_points_sound l hcon
  rw [hr] at h
  cases h

theorem find_bracketing_points_isSome (cps : List ControlPoint) (t : ℚ)
    (h : cps ≠ []) : (find_bracketing_points cps t).isSome := by
  unfold find_bracketing_points
  split
  · rfl
  · cases cps with
    | nil => exact absurd rfl h
    | cons a l =>
        rw [List.getLast?_eq_getLast_of_ne_nil (by simp), Option.map_some']
        rfl

theorem interpolate_between_isSome (conv : Conv) (s : Swatch) (t : ℚ)
    (h : s.control_points ≠ []) : (interpolate_between conv s t).isSome := by
  unfold interpolate_between
  obtain ⟨p, hp⟩ :=
    Option.isSome_iff_exists.mp (find_bracketing_points_isSome s.control_points t h)
  rw [hp, Option.map_some']
  rfl

theorem sample_at_isSome (conv : Conv) (s : Swatch) (t : ℚ) :
    (sample_at conv s t).isSome := by
  unfold sample_at
  by_cases h1 : s.control_points = []
  · rw [if_pos h1]; rfl
  · rw [if_neg h1]
    by_cases h2 : s.control_points.length = 1
    · rw [if_pos h2]
      unfold sample_single_point
      cases hc : s.control_points with
      | nil => exact absurd hc h1
      | cons a l =>
          rw [List.head?_cons, Option.map_some']
          rfl
    · rw [if_neg h2]
      cases hc : s.control_points with
      | nil => exact absurd hc h1
      | cons a l =>
          rw [List.head?_cons,
            List.getLast?_eq_getLast_of_ne_nil (l := a :: l) (by simp)]
          show (if t < a.position then some (extrapolate_before conv s t a)
                else if ((a :: l).getLast (by simp)).position < t then
                  some (extrapolate_after conv s t ((a :: l).getLast (by simp)))
                else interpolate_between conv s t).isSome
      
          split
          · rfl
          · split
            · rfl
            · exact interpolate_between_isSome conv s t (by rw [hc]; simp)

theorem mapM_loop_isSome {α β : Type} (f : α → Option β) (h : ∀ x, (f x).isSome) :
    ∀ (l : List α) (acc : List β), (List.mapM.loop f l acc).isSome
  | [], _ => rfl
  | x :: xs, acc => by
      unfold List.mapM.loop
      obtain ⟨y, hy⟩ := Option.isSome_iff_exists.mp (h x)
      rw [hy]
      show (List.mapM.loop f xs (y :: acc)).isSome
      exact mapM_loop_isSome f h xs (y :: acc)

theorem generate_colors_isSome (conv : Conv) (s : Swatch) :
    (generate_colors conv s).isSome := by
  unfold generate_colors
  split
  · rfl
  · exact mapM_loop_isSome _ (fun i => sample_at_isSome conv s _) _ _

theorem current_swatch_isSome (app : App) (h : app.Inv) :
    (App.current_swatch app).isSome := by
  unfold App.current_swatch
  rw [List.get?_eq_get h.2]
  rfl

/-- C7: under non-NaN control-point positions no modelled operation
fails: the position sort succeeds whenever every position is non-NaN and
returns `none` only when some position is NaN (the comparator `unwrap` is
the one fallible call); sampling, color generation and current-swatch
access (under the cache invariant) are total — every other guarded
indexing/unwrap in the embedding is proved reachable only with a defined
result. -/
theorem engine_no_panic (l lnan : List ControlPointF) (conv : Conv)
    (s : Swatch) (t : ℚ) (app : App)
    (hl : ∀ d ∈ l, d.position ≠ none) (happ : app.Inv) :
    (sort_control_points l).isSome ∧
      (sort_control_points lnan = none → ∃ d ∈ lnan, d.position = none) ∧
      (sample_at conv s t).isSome ∧
      (generate_colors conv s).isSome ∧
      (App.current_swatch app).isSome := by
  obtain ⟨r, hr, _⟩ := sort_control_points_sound l hl
  exact ⟨by rw [hr]; rfl, sort_control_points_none_imp lnan,
    sample_at_isSome conv s t, generate_colors_isSome conv s,
    current_swatch_isSome app happ⟩

/-- Witness for C7 on concrete inputs, including a NaN list on which the
sort does fail. -/
theorem engine_no_panic_witness :
    (sort_control_points
        [⟨0, some 1, Color.black⟩, ⟨1, some 0, Color.black⟩]).isSome ∧
      (sort_control_points [⟨0, none, Color.black⟩, ⟨1, some 0, Color.black⟩] = none →
        ∃ d ∈ ([⟨0, none, Color.black⟩, ⟨1, some 0, Color.black⟩] : List ControlPointF),
          d.position = none) ∧
      (sample_at Conv.triv Swatch.default 0).isSome ∧
      (generate_colors Conv.triv Swatch.default).isSome ∧
      (App.current_swatch app_one).isSome :=
  engine_no_panic
    [⟨0, some 1, Color.black⟩, ⟨1, some 0, Color.black⟩]
    [⟨0, none, Color.black⟩, ⟨1, some 0, Color.black⟩]
    Conv.triv Swatch.default 0 app_one
    (by intro d hd; rcases List.mem_cons.mp hd with h | h
        · subst h; exact Option.noConfusion
        · have : d = ⟨1, some 0, Color.black⟩ := by simpa using h
          subst this; exact Option.noConfusion)
    (by constructor <;> decide)
